import Mathlib

/-!
Verification development for the memorydumper2 repository.

The visible source (`CMemory.cpp`) is the fixture harness: it builds sample
structs, classes and heap trees and hands each to an external sink
`dump(ptr, knownSize, maxDepth, name)`.  The introspector engine itself
(AddressValidity Oracle, HeapBlockResolver, WordClassifier,
PolymorphicLayoutWalker, VisitGuard, TreeBuilder/Emitter) is not part of the
visible source, so it is modelled here from the specification, component by
component.  The fixture structs, classes and the six `dump` invocations of
`DumpCMemory` are translated from `CMemory.cpp`, with sizes computed by the
standard C layout rules at the platform parameters the spec fixes
(8-byte pointers and longs, 4-byte int, 2-byte short, 8-byte max alignment).
-/

namespace MemoryDumper

/-- Node kinds of the emitted tree, from the spec's data model (plus the
DepthExceeded truncation marker of the VisitGuard contract). -/
inductive NodeKind where
  | aggregate
  | scalar
  | pointerSlot
  | polymorphicObject
  | paddingGap
  | cycleReference
  | unreadable
  | depthExceeded
deriving DecidableEq, Repr

/-- A node of the emitted tree: start address, declared size in bytes, kind,
and ordered children (insertion order = memory offset order). -/
inductive Node where
  | mk : Nat → Nat → NodeKind → List Node → Node
deriving Repr

/-- Start address of a node. -/
def Node.address : Node → Nat
  | .mk a _ _ _ => a

/-- Declared size of a node, in bytes. -/
def Node.declaredSize : Node → Nat
  | .mk _ s _ _ => s

/-- Kind of a node. -/
def Node.kind : Node → NodeKind
  | .mk _ _ k _ => k

/-- Children of a node, in ascending offset order. -/
def Node.children : Node → List Node
  | .mk _ _ _ cs => cs

/-- Modelled from the spec: the process memory state the missing introspector
engine queries.  `allocs` is the allocator's live-heap registry (base, usable
size), `fixedRegions` are mapped non-heap regions (stack, globals),
`codeRegions` are executable/read-only regions holding vtables, and `word` is
the pointer-sized value stored at a byte address. -/
structure Memory where
  allocs : List (Nat × Nat)
  fixedRegions : List (Nat × Nat)
  codeRegions : List (Nat × Nat)
  word : Nat → Nat

/-- The platform pointer size: 8 bytes. -/
def pointerSize : Nat := 8

/-- Whether region `r = (base, size)` wholly contains `[a, a+len)`. -/
def inRegion (r : Nat × Nat) (a len : Nat) : Bool :=
  decide (r.1 ≤ a) && decide (a + len ≤ r.1 + r.2)

/-- Modelled from the spec: the missing AddressValidity Oracle.
`IsReadable(address, length)`: false for null and for ranges not wholly
inside one known allocated/mapped region. -/
def isReadable (m : Memory) (a len : Nat) : Bool :=
  (a != 0) && (m.allocs.any (fun r => inRegion r a len) ||
               m.fixedRegions.any (fun r => inRegion r a len))

/-- Whether address `a` falls in a known executable/read-only code region. -/
def isCode (m : Memory) (a : Nat) : Bool :=
  m.codeRegions.any (fun r => decide (r.1 ≤ a) && decide (a < r.1 + r.2))

/-- Classification of one pointer-sized aligned slot. -/
inductive SlotClass where
  | vtablePointer
  | pointer
  | scalar
deriving DecidableEq, Repr

/-- Modelled from the spec: the missing WordClassifier.  Priority order:
code-region value is a vtable pointer; else a non-null, pointer-aligned,
readable value is a pointer; else scalar. -/
def classify (m : Memory) (v : Nat) : SlotClass :=
  if isCode m v then .vtablePointer
  else if (v != 0) && (v % pointerSize == 0) && isReadable m v 1 then .pointer
  else .scalar

/-- The bounded fixed-constant default window the resolver reports for a
readable address backed by no known heap allocation. -/
def defaultWindowSize : Nat := 64

/-- Modelled from the spec: the missing HeapBlockResolver.
`Resolve(pointerValue)`: exact base of a live allocation reports its usable
size; an interior pointer reports the remaining bytes to the containing
allocation's end; a readable address with no containing allocation reports
the capped default window; otherwise `none` (NotAnAllocation). -/
def resolve (m : Memory) (p : Nat) : Option (Nat × Nat) :=
  match m.allocs.find? (fun r => r.1 == p) with
  | some r => some (r.1, r.2)
  | none =>
    match m.allocs.find? (fun r => decide (r.1 < p) && decide (p < r.1 + r.2)) with
    | some r => some (p, r.1 + r.2 - p)
    | none => if isReadable m p 1 then some (p, defaultWindowSize) else none

/-- Pointer-aligned offsets of an object whose slots classify as vtable
pointers. -/
def vtableOffsets (m : Memory) (addr size : Nat) : List Nat :=
  ((List.range (size / pointerSize)).filter
    (fun k => classify m (m.word (addr + pointerSize * k)) == SlotClass.vtablePointer)).map
    (fun k => pointerSize * k)

/-- Cuts an ordered list of vtable-pointer offsets into segments: each offset
starts a segment whose size runs to the next offset, or to object end. -/
def segmentsFrom : List Nat → Nat → List (Nat × Nat)
  | [], _ => []
  | [o], size => [(o, size - o)]
  | o1 :: o2 :: rest, size => (o1, o2 - o1) :: segmentsFrom (o2 :: rest) size

/-- Modelled from the spec: the missing PolymorphicLayoutWalker.
`Segment(objectAddress, objectSize)`: every pointer-aligned offset whose slot
classifies as VtablePointer starts a new segment; a segment runs to the next
such offset or to object end; a non-polymorphic object yields no segments. -/
def walker (m : Memory) (addr size : Nat) : List (Nat × Nat) :=
  segmentsFrom (vtableOffsets m addr size) size

/-- Scans `count` pointer-sized slots starting at `slotAddr` (flat-aggregate
scan of the TreeBuilder): a slot classified Pointer is resolved and the
resolved region dumped through `child` (threading the visited set in offset
order); any other slot becomes an opaque scalar leaf. -/
def scanSlots (m : Memory) (child : Nat → Nat → List Nat → Node × List Nat) :
    Nat → Nat → List Nat → List Node × List Nat
  | 0, _, visited => ([], visited)
  | count + 1, slotAddr, visited =>
    match classify m (m.word slotAddr) with
    | .pointer =>
      (match resolve m (m.word slotAddr) with
       | some br =>
         let t := child br.1 br.2 visited
         let rest := scanSlots m child count (slotAddr + pointerSize) t.2
         (Node.mk slotAddr pointerSize .pointerSlot [t.1] :: rest.1, rest.2)
       | none =>
         let rest := scanSlots m child count (slotAddr + pointerSize) visited
         (Node.mk slotAddr pointerSize .scalar [] :: rest.1, rest.2))
    | _ =>
      let rest := scanSlots m child count (slotAddr + pointerSize) visited
      (Node.mk slotAddr pointerSize .scalar [] :: rest.1, rest.2)

/-- Children of a flat aggregate: one node per pointer-sized slot, and a
PaddingGap leaf for the unaligned tail bytes claimed by no recognized slot. -/
def flatChildren (m : Memory) (child : Nat → Nat → List Nat → Node × List Nat)
    (addr size : Nat) (visited : List Nat) : List Node × List Nat :=
  let sc := scanSlots m child (size / pointerSize) addr visited
  if size % pointerSize == 0 then sc
  else (sc.1 ++ [Node.mk (addr + pointerSize * (size / pointerSize)) (size % pointerSize)
                   .paddingGap []], sc.2)

/-- One PolymorphicObject node per walker segment, each holding the segment's
own flat-aggregate children, threading the visited set in offset order. -/
def segNodes (m : Memory) (child : Nat → Nat → List Nat → Node × List Nat)
    (addr : Nat) : List (Nat × Nat) → List Nat → List Node × List Nat
  | [], visited => ([], visited)
  | seg :: rest, visited =>
    let fc := flatChildren m child (addr + seg.1) seg.2 visited
    let others := segNodes m child addr rest fc.2
    (Node.mk (addr + seg.1) seg.2 .polymorphicObject fc.1 :: others.1, others.2)

/-- Modelled from the spec: the missing TreeBuilder/Emitter, one node.
Step 1 validates the range (else an Unreadable leaf); step 2 consults the
VisitGuard (a revisited address becomes a CycleReference leaf, an exhausted
budget a DepthExceeded leaf, and Proceed records the address and decrements
the budget for pointer-following children); step 3 runs the walker (segments
make a polymorphic node); step 4 scans a flat aggregate's slots.  Returns the
built node and the updated visited set. -/
def dumpGo (m : Memory) : Nat → Nat → Nat → List Nat → Node × List Nat
  | 0, addr, size, visited =>
    if isReadable m addr size then
      if addr ∈ visited then (Node.mk addr size .cycleReference [], visited)
      else (Node.mk addr size .depthExceeded [], visited)
    else (Node.mk addr size .unreadable [], visited)
  | d + 1, addr, size, visited =>
    if isReadable m addr size then
      if addr ∈ visited then (Node.mk addr size .cycleReference [], visited)
      else
        match walker m addr size with
        | [] =>
          let fc := flatChildren m (fun a2 s2 v2 => dumpGo m d a2 s2 v2)
                      addr size (addr :: visited)
          (Node.mk addr size .aggregate fc.1, fc.2)
        | seg :: rest =>
          let sn := segNodes m (fun a2 s2 v2 => dumpGo m d a2 s2 v2)
                      addr (seg :: rest) (addr :: visited)
          (Node.mk addr size .polymorphicObject sn.1, sn.2)
    else (Node.mk addr size .unreadable [], visited)

/-- Modelled from the spec: the missing entry point
`Dump(address, knownSize, maxDepth, name)`.  Every invocation starts with a
fresh, empty visited set, discarded when the invocation completes. -/
def Dump (m : Memory) (addr size maxDepth : Nat) : Node :=
  (dumpGo m maxDepth addr size []).1

/-- Byte range a node claims inside its parent: its address and size. -/
def footprint (n : Node) : Nat × Nat :=
  (n.address, n.declaredSize)

/-- Whether an ordered list of (address, size) ranges exactly tiles the
interval from `start` to `stop`: each range begins where the previous one
ended, so the ranges are pairwise disjoint and leave no byte uncovered. -/
def covers : Nat → List (Nat × Nat) → Nat → Prop
  | start, [], stop => start = stop
  | start, r :: rs, stop => r.1 = start ∧ covers (start + r.2) rs stop

mutual

/-- Every Aggregate node in the tree has children whose footprints exactly
tile its declared interval. -/
def aggTiled : Node → Prop
  | .mk a s k cs =>
    (k = .aggregate → covers a (cs.map footprint) (a + s)) ∧ aggTiledList cs

/-- List version of `aggTiled`. -/
def aggTiledList : List Node → Prop
  | [] => True
  | c :: cs => aggTiled c ∧ aggTiledList cs

end

mutual

/-- Pointer-following depth of a tree: the number of pointer dereferences on
the deepest path; slots, segments and leaves of one object add nothing. -/
def hopHeight : Node → Nat
  | .mk _ _ k cs => (if k = .pointerSlot then 1 else 0) + hopHeightList cs

/-- List version of `hopHeight`: the maximum over the list. -/
def hopHeightList : List Node → Nat
  | [] => 0
  | c :: cs => max (hopHeight c) (hopHeightList cs)

end

mutual

/-- Number of nodes emitted for a tree. -/
def countNodes : Node → Nat
  | .mk _ _ _ cs => 1 + countNodesList cs

/-- List version of `countNodes`. -/
def countNodesList : List Node → Nat
  | [] => 0
  | c :: cs => countNodes c + countNodesList cs

end

mutual

/-- Number of nodes in a tree satisfying a predicate. -/
def countP (p : Node → Bool) : Node → Nat
  | .mk a s k cs => (if p (.mk a s k cs) then 1 else 0) + countPList p cs

/-- List version of `countP`. -/
def countPList (p : Node → Bool) : List Node → Nat
  | [] => 0
  | c :: cs => countP p c + countPList p cs

end

/-! ## C layout of the fixture structs

The fixture structs are translated from `CMemory.cpp` as lists of
(size, alignment) pairs, and their offsets and padding are computed by the
standard C layout rules at the platform parameters the claims fix:
8-byte pointers and longs, 4-byte int, 2-byte short, 8-byte max alignment. -/

/-- Rounds `off` up to the next multiple of `align`. -/
def alignTo (off align : Nat) : Nat :=
  ((off + align - 1) / align) * align

/-- Field offsets of a struct laid out from offset `off`, one per
(size, alignment) field, each placed at the next aligned offset. -/
def fieldOffsets : Nat → List (Nat × Nat) → List Nat
  | _, [] => []
  | off, f :: fs => alignTo off f.2 :: fieldOffsets (alignTo off f.2 + f.1) fs

/-- End offset after laying out the fields from offset `off`. -/
def layoutEnd : Nat → List (Nat × Nat) → Nat
  | off, [] => off
  | off, f :: fs => layoutEnd (alignTo off f.2 + f.1) fs

/-- Strictest alignment among the fields. -/
def maxAlign : List (Nat × Nat) → Nat
  | [] => 1
  | f :: fs => max f.2 (maxAlign fs)

/-- Total size of the struct: the end offset rounded up to the struct's own
alignment. -/
def structSize (fs : List (Nat × Nat)) : Nat :=
  alignTo (layoutEnd 0 fs) (maxAlign fs)

/-- Padding ranges (offset, length) between the fields: the bytes skipped
when a field is moved up to its alignment boundary. -/
def paddingGaps : Nat → List (Nat × Nat) → List (Nat × Nat)
  | _, [] => []
  | off, f :: fs =>
    (if off < alignTo off f.2 then [(off, alignTo off f.2 - off)] else []) ++
      paddingGaps (alignTo off f.2 + f.1) fs

/-- Fields of `struct S { long x; long y; long z; }` (CMemory.cpp:8). -/
def sFields : List (Nat × Nat) := [(8, 8), (8, 8), (8, 8)]

/-- Fields of `struct WithPadding { char a,b,c; short d; char e; int f;
char g; long h; }` (CMemory.cpp:17). -/
def withPaddingFields : List (Nat × Nat) :=
  [(1, 1), (1, 1), (1, 1), (2, 2), (1, 1), (4, 4), (1, 1), (8, 8)]

/-- Fields of `struct MallocTreeRoot { MallocTreeNode1 *child1;
MallocTreeNode2 *child2; }` (CMemory.cpp:40). -/
def mallocTreeRootFields : List (Nat × Nat) := [(8, 8), (8, 8)]

/-- Layout of `SimpleClass` (CMemory.cpp:66): vtable pointer, then `long x`. -/
def simpleClassFields : List (Nat × Nat) := [(8, 8), (8, 8)]

/-- Layout of `SimpleSubclass` (CMemory.cpp:79): the `SimpleClass` base
subobject (vtable pointer, `long x`), then `long y`. -/
def simpleSubclassFields : List (Nat × Nat) := [(8, 8), (8, 8), (8, 8)]

/-- Layout of `MultipleInheritanceSubclass` (CMemory.cpp:100): the
`SimpleClass` base subobject (vtable pointer, `long x`), the
`SecondSuperclass` base subobject (vtable pointer, `long z`), then `long a`. -/
def multipleInheritanceSubclassFields : List (Nat × Nat) :=
  [(8, 8), (8, 8), (8, 8), (8, 8), (8, 8)]

/-! ## Concrete fixture memories -/

/-- A two-block cyclic heap: the word at 256 points to 512 and the word at
512 points back to 256 (the A-to-B-to-A cycle of the cycle law). -/
def cycMem : Memory :=
  { allocs := [(256, 8), (512, 8)], fixedRegions := [], codeRegions := [],
    word := fun a => if a = 256 then 512 else if a = 512 then 256 else 0 }

/-- The malloc tree of `DumpCMemory` (CMemory.cpp:45): leaf1 at 4096,
leaf2 at 4352, node1 at 4608, node2 at 4864, the root object at 5120, and
the stack variable `root` at 8192.  `node1->child` and `node2->child1` both
point at leaf1; leaf words hold text bytes that classify as scalars. -/
def treeMem : Memory :=
  { allocs := [(4096, 16), (4352, 16), (4608, 8), (4864, 16), (5120, 16)],
    fixedRegions := [(8192, 8)], codeRegions := [],
    word := fun a =>
      if a = 8192 then 5120
      else if a = 5120 then 4608
      else if a = 5128 then 4864
      else if a = 4608 then 4096
      else if a = 4864 then 4096
      else if a = 4872 then 4352
      else if a = 4096 then 97
      else if a = 4104 then 98
      else if a = 4352 then 99
      else if a = 4360 then 100
      else 0 }

/-- The `withPadding` fixture object (CMemory.cpp:27) at 24576 on the stack:
24 bytes whose three pointer-sized words hold small scalar values. -/
def wpMem : Memory :=
  { allocs := [], fixedRegions := [(24576, 24)], codeRegions := [],
    word := fun a =>
      if a = 24576 then 1 else if a = 24584 then 2 else if a = 24592 then 3 else 0 }

/-- The `simpleClass` fixture object (CMemory.cpp:75) at 12288: its vtable
pointer (36864) lies in a code region, then `x = 1`. -/
def simpleClassMem : Memory :=
  { allocs := [], fixedRegions := [(12288, 16)],
    codeRegions := [(36864, 256), (37120, 256)],
    word := fun a => if a = 12288 then 36864 else if a = 12296 then 1 else 0 }

/-- The `multipleInheritanceSubclass` fixture object (CMemory.cpp:105) at
16384: a vtable pointer at offset 0 (SimpleClass base), `x = 1`, a second
vtable pointer at offset 16 (SecondSuperclass base), `z`, then `a = 2`. -/
def misMem : Memory :=
  { allocs := [], fixedRegions := [(16384, 40)],
    codeRegions := [(36864, 256), (37120, 256)],
    word := fun a =>
      if a = 16384 then 36864
      else if a = 16392 then 1
      else if a = 16400 then 37120
      else if a = 16408 then 5
      else if a = 16416 then 2
      else 0 }

/-- The non-polymorphic `s` fixture object (CMemory.cpp:14) at 20480:
three longs 1, 2, 3, no vtable pointer. -/
def sMem : Memory :=
  { allocs := [], fixedRegions := [(20480, 24)],
    codeRegions := [(36864, 256), (37120, 256)],
    word := fun a =>
      if a = 20480 then 1 else if a = 20488 then 2 else if a = 20496 then 3 else 0 }

/-- A heap with one allocation and one fixed mapped region, exercising the
resolver's interior-pointer and default-window paths. -/
def resolverMem : Memory :=
  { allocs := [(100, 16)], fixedRegions := [(200, 8)], codeRegions := [],
    word := fun _ => 0 }

/-! ## The fixture invocations of DumpCMemory -/

/-- One `dump(ptr, knownSize, maxDepth, name)` invocation of the fixture. -/
structure DumpCall where
  callName : String
  knownSize : Nat
  maxDepth : Nat

/-- The six sink invocations of `DumpCMemory` (CMemory.cpp:15,28,58,77,90,108),
in order.  The third passes the address of the local pointer variable `root`
with `sizeof(root)`, the size of one pointer; every other call passes the
full `sizeof` of the object itself; all pass `maxDepth = 10`. -/
def dumpCMemoryCalls : List DumpCall :=
  [ ⟨"Simple C struct", structSize sFields, 10⟩,
    ⟨"C struct with padding", structSize withPaddingFields, 10⟩,
    ⟨"C tree", pointerSize, 10⟩,
    ⟨"Simple C++ class", structSize simpleClassFields, 10⟩,
    ⟨"Simple C++ subclass", structSize simpleSubclassFields, 10⟩,
    ⟨"C++ subclass with two superclasses", structSize multipleInheritanceSubclassFields, 10⟩ ]

/-- A sequence of top-level Dump invocations against one memory: each starts
fresh, per the VisitGuard contract (its visited set is discarded at the end
of each call). -/
def runDumps (m : Memory) : List (Nat × Nat × Nat) → List Node
  | [] => []
  | c :: rest => Dump m c.1 c.2.1 c.2.2 :: runDumps m rest

/-- Regions are disjoint when one ends before the other begins. -/
def disjointRegions (r1 r2 : Nat × Nat) : Prop :=
  r1.1 + r1.2 ≤ r2.1 ∨ r2.1 + r2.2 ≤ r1.1

/-- The allocator registry holds pairwise-disjoint live allocations. -/
def allocsDisjoint (m : Memory) : Prop :=
  m.allocs.Pairwise disjointRegions

/-! ## Tiling of flat aggregates -/

theorem covers_append {l1 l2 : List (Nat × Nat)} {s mid e : Nat}
    (h1 : covers s l1 mid) (h2 : covers mid l2 e) : covers s (l1 ++ l2) e := by
  induction l1 generalizing s with
  | nil => simp only [covers] at h1; subst h1; simpa using h2
  | cons r rs ih =>
    obtain ⟨hr, hrest⟩ := h1
    exact ⟨hr, ih hrest⟩

theorem scanSlots_covers (m : Memory) (child : Nat → Nat → List Nat → Node × List Nat) :
    ∀ (count slotAddr : Nat) (visited : List Nat),
      covers slotAddr (((scanSlots m child count slotAddr visited).1).map footprint)
        (slotAddr + pointerSize * count) := by
  intro count
  induction count with
  | zero => intro slotAddr visited; simp [scanSlots, covers]
  | succ c ih =>
    intro slotAddr visited
    have harith : slotAddr + pointerSize * (c + 1) = slotAddr + pointerSize + pointerSize * c := by
      ring
    rw [harith]
    cases hc : classify m (m.word slotAddr) with
    | pointer =>
      cases hr : resolve m (m.word slotAddr) with
      | some br =>
        simp only [scanSlots, hc, hr]
        exact ⟨rfl, ih _ _⟩
      | none =>
        simp only [scanSlots, hc, hr]
        exact ⟨rfl, ih _ _⟩
    | vtablePointer =>
      simp only [scanSlots, hc]
      exact ⟨rfl, ih _ _⟩
    | scalar =>
      simp only [scanSlots, hc]
      exact ⟨rfl, ih _ _⟩

theorem flatChildren_covers (m : Memory) (child : Nat → Nat → List Nat → Node × List Nat)
    (addr size : Nat) (visited : List Nat) :
    covers addr (((flatChildren m child addr size visited).1).map footprint) (addr + size) := by
  have h := scanSlots_covers m child (size / pointerSize) addr visited
  have hdm := Nat.div_add_mod size pointerSize
  by_cases h0 : size % pointerSize = 0
  · have hsz : pointerSize * (size / pointerSize) = size := by omega
    simp only [flatChildren, h0, beq_self_eq_true, if_true]
    rw [hsz] at h
    exact h
  · have hne : (size % pointerSize == 0) = false := by simp [h0]
    simp only [flatChildren, hne, Bool.false_eq_true, if_false, List.map_append]
    refine covers_append h ⟨rfl, ?_⟩
    show addr + pointerSize * (size / pointerSize) + size % pointerSize = addr + size
    omega

theorem aggTiledList_append {l1 l2 : List Node}
    (h1 : aggTiledList l1) (h2 : aggTiledList l2) : aggTiledList (l1 ++ l2) := by
  induction l1 with
  | nil => simpa using h2
  | cons c cs ih =>
    obtain ⟨hc, hcs⟩ := h1
    exact ⟨hc, ih hcs⟩

theorem scanSlots_tiled (m : Memory) (child : Nat → Nat → List Nat → Node × List Nat)
    (hchild : ∀ a s v, aggTiled (child a s v).1) :
    ∀ (count slotAddr : Nat) (visited : List Nat),
      aggTiledList ((scanSlots m child count slotAddr visited).1) := by
  intro count
  induction count with
  | zero => intro slotAddr visited; simp [scanSlots, aggTiledList]
  | succ c ih =>
    intro slotAddr visited
    cases hc : classify m (m.word slotAddr) with
    | pointer =>
      cases hr : resolve m (m.word slotAddr) with
      | some br =>
        simp only [scanSlots, hc, hr, aggTiledList, aggTiled]
        exact ⟨⟨(fun h => nomatch h), hchild _ _ _, trivial⟩, ih _ _⟩
      | none =>
        simp only [scanSlots, hc, hr, aggTiledList, aggTiled]
        exact ⟨⟨(fun h => nomatch h), trivial⟩, ih _ _⟩
    | vtablePointer =>
      simp only [scanSlots, hc, aggTiledList, aggTiled]
      exact ⟨⟨(fun h => nomatch h), trivial⟩, ih _ _⟩
    | scalar =>
      simp only [scanSlots, hc, aggTiledList, aggTiled]
      exact ⟨⟨(fun h => nomatch h), trivial⟩, ih _ _⟩

theorem flatChildren_tiled (m : Memory) (child : Nat → Nat → List Nat → Node × List Nat)
    (hchild : ∀ a s v, aggTiled (child a s v).1)
    (addr size : Nat) (visited : List Nat) :
    aggTiledList ((flatChildren m child addr size visited).1) := by
  have h := scanSlots_tiled m child hchild (size / pointerSize) addr visited
  by_cases h0 : size % pointerSize = 0
  · simpa only [flatChildren, h0, beq_self_eq_true, if_true] using h
  · have hne : (size % pointerSize == 0) = false := by simp [h0]
    simp only [flatChildren, hne, Bool.false_eq_true, if_false]
    exact aggTiledList_append h ⟨⟨(fun hk => nomatch hk), trivial⟩, trivial⟩

theorem segNodes_tiled (m : Memory) (child : Nat → Nat → List Nat → Node × List Nat)
    (hchild : ∀ a s v, aggTiled (child a s v).1) (addr : Nat) :
    ∀ (segs : List (Nat × Nat)) (visited : List Nat),
      aggTiledList ((segNodes m child addr segs visited).1) := by
  intro segs
  induction segs with
  | nil => intro visited; simp [segNodes, aggTiledList]
  | cons seg rest ih =>
    intro visited
    simp only [segNodes, aggTiledList, aggTiled]
    exact ⟨⟨(fun h => nomatch h), flatChildren_tiled m child hchild _ _ _⟩, ih _⟩

theorem dumpGo_aggTiled (m : Memory) :
    ∀ (depth addr size : Nat) (visited : List Nat),
      aggTiled (dumpGo m depth addr size visited).1 := by
  intro depth
  induction depth with
  | zero =>
    intro addr size visited
    simp only [dumpGo]
    split
    · split
      · exact ⟨(fun h => nomatch h), trivial⟩
      · exact ⟨(fun h => nomatch h), trivial⟩
    · exact ⟨(fun h => nomatch h), trivial⟩
  | succ d ih =>
    intro addr size visited
    simp only [dumpGo]
    split
    · split
      · exact ⟨(fun h => nomatch h), trivial⟩
      · cases hw : walker m addr size with
        | nil =>
          simp only [hw]
          exact ⟨fun _ => flatChildren_covers m _ addr size _,
            flatChildren_tiled m _ (fun a s v => ih a s v) addr size _⟩
        | cons seg rest =>
          simp only [hw]
          exact ⟨(fun h => nomatch h),
            segNodes_tiled m _ (fun a s v => ih a s v) addr (seg :: rest) _⟩
    · exact ⟨(fun h => nomatch h), trivial⟩

/-! ## Depth bound -/

theorem hopHeightList_append (l1 l2 : List Node) :
    hopHeightList (l1 ++ l2) = max (hopHeightList l1) (hopHeightList l2) := by
  induction l1 with
  | nil => simp [hopHeightList]
  | cons c cs ih => simp [hopHeightList, ih, Nat.max_assoc]

theorem scanSlots_hop (m : Memory) (child : Nat → Nat → List Nat → Node × List Nat)
    (d : Nat) (hchild : ∀ a s v, hopHeight (child a s v).1 ≤ d) :
    ∀ (count slotAddr : Nat) (visited : List Nat),
      hopHeightList ((scanSlots m child count slotAddr visited).1) ≤ d + 1 := by
  intro count
  induction count with
  | zero => intro slotAddr visited; simp [scanSlots, hopHeightList]
  | succ c ih =>
    intro slotAddr visited
    cases hc : classify m (m.word slotAddr) with
    | pointer =>
      cases hr : resolve m (m.word slotAddr) with
      | some br =>
        have h1 := hchild br.1 br.2 visited
        have h2 := ih (slotAddr + pointerSize) (child br.1 br.2 visited).2
        simp [scanSlots, hc, hr, hopHeightList, hopHeight, Nat.max_le]
        constructor <;> omega
      | none =>
        have h2 := ih (slotAddr + pointerSize) visited
        simp [scanSlots, hc, hr, hopHeightList, hopHeight, Nat.max_le]
        omega
    | vtablePointer =>
      have h2 := ih (slotAddr + pointerSize) visited
      simp [scanSlots, hc, hopHeightList, hopHeight, Nat.max_le]
      omega
    | scalar =>
      have h2 := ih (slotAddr + pointerSize) visited
      simp [scanSlots, hc, hopHeightList, hopHeight, Nat.max_le]
      omega

theorem flatChildren_hop (m : Memory) (child : Nat → Nat → List Nat → Node × List Nat)
    (d : Nat) (hchild : ∀ a s v, hopHeight (child a s v).1 ≤ d)
    (addr size : Nat) (visited : List Nat) :
    hopHeightList ((flatChildren m child addr size visited).1) ≤ d + 1 := by
  have h := scanSlots_hop m child d hchild (size / pointerSize) addr visited
  by_cases h0 : size % pointerSize = 0
  · simpa only [flatChildren, h0, beq_self_eq_true, if_true] using h
  · have hne : (size % pointerSize == 0) = false := by simp [h0]
    simp only [flatChildren, hne, Bool.false_eq_true, if_false, hopHeightList_append,
      Nat.max_le]
    exact ⟨h, by simp [hopHeightList, hopHeight]⟩

theorem segNodes_hop (m : Memory) (child : Nat → Nat → List Nat → Node × List Nat)
    (d : Nat) (hchild : ∀ a s v, hopHeight (child a s v).1 ≤ d) (addr : Nat) :
    ∀ (segs : List (Nat × Nat)) (visited : List Nat),
      hopHeightList ((segNodes m child addr segs visited).1) ≤ d + 1 := by
  intro segs
  induction segs with
  | nil => intro visited; simp [segNodes, hopHeightList]
  | cons seg rest ih =>
    intro visited
    simp only [segNodes, hopHeightList, hopHeight, Nat.max_le]
    constructor
    · have := flatChildren_hop m child d hchild (addr + seg.1) seg.2 visited
      simpa using this
    · exact ih _

theorem dumpGo_hop (m : Memory) :
    ∀ (depth addr size : Nat) (visited : List Nat),
      hopHeight (dumpGo m depth addr size visited).1 ≤ depth := by
  intro depth
  induction depth with
  | zero =>
    intro addr size visited
    simp only [dumpGo]
    split
    · split
      · simp [hopHeight, hopHeightList]
      · simp [hopHeight, hopHeightList]
    · simp [hopHeight, hopHeightList]
  | succ d ih =>
    intro addr size visited
    simp only [dumpGo]
    split
    · split
      · simp [hopHeight, hopHeightList]
      · cases hw : walker m addr size with
        | nil =>
          simp only [hw, hopHeight]
          have := flatChildren_hop m _ d (fun a s v => ih a s v) addr size (addr :: visited)
          simpa using this
        | cons seg rest =>
          simp only [hw, hopHeight]
          have := segNodes_hop m _ d (fun a s v => ih a s v) addr (seg :: rest) (addr :: visited)
          simpa using this
    · simp [hopHeight, hopHeightList]

/-! ## Resolver lemmas -/

theorem find?_containing (p : Nat) :
    ∀ (l : List (Nat × Nat)), l.Pairwise disjointRegions →
      ∀ b s, (b, s) ∈ l → b < p → p < b + s →
        l.find? (fun r => decide (r.1 < p) && decide (p < r.1 + r.2)) = some (b, s) := by
  intro l
  induction l with
  | nil => intro _ b s h; simp at h
  | cons r rs ih =>
    intro hl b s hmem hlo hhi
    obtain ⟨hhead, htail⟩ := List.pairwise_cons.mp hl
    rcases List.mem_cons.mp hmem with heq | hmem2
    · subst heq
      exact List.find?_cons_of_pos _ (by simp [hlo, hhi])
    · have hd : disjointRegions r (b, s) := hhead _ hmem2
      have hnot : (decide (r.1 < p) && decide (p < r.1 + r.2)) = false := by
        rcases hd with h | h
        · have hgt : ¬ (p < r.1 + r.2) := by simp only [Prod.fst] at h; omega
          simp [hgt]
        · have hgt : ¬ (r.1 < p) := by simp only [Prod.fst, Prod.snd] at h; omega
          simp [hgt]
      rw [List.find?_cons, hnot]
      exact ih htail b s hmem2 hlo hhi

/-! ## Claim theorems -/

/-- C1: for every flat (non-polymorphic) Aggregate node emitted by Dump, the
byte ranges of its emitted children — scalar leaves, PaddingGap leaves, and
the pointer slots' own declared sizes — are pairwise disjoint and their
union exactly covers the parent's declared interval
[address, address + declaredSize). -/
theorem dump_flat_aggregates_tile (m : Memory) (addr size maxDepth : Nat) :
    aggTiled (Dump m addr size maxDepth) :=
  dumpGo_aggTiled m maxDepth addr size []

/-- C2: every node emitted by Dump sits at pointer-following depth at most
maxDepth (the root at depth 0), and in the boundary case maxDepth = 0 on a
readable object, exactly one node is emitted — the root itself, carrying the
DepthExceeded marker and no expanded children. -/
theorem dump_depth_invariant (m : Memory) (addr size maxDepth : Nat)
    (h : isReadable m addr size = true) :
    hopHeight (Dump m addr size maxDepth) ≤ maxDepth ∧
    (maxDepth = 0 →
      Dump m addr size maxDepth = Node.mk addr size .depthExceeded [] ∧
      countNodes (Dump m addr size maxDepth) = 1) := by
  constructor
  · exact dumpGo_hop m maxDepth addr size []
  · intro h0
    subst h0
    constructor
    · simp [Dump, dumpGo, h]
    · simp [Dump, dumpGo, h, countNodes, countNodesList]

/-- Witness for C2 at a concrete readable object with maxDepth 0. -/
theorem dump_depth_invariant_witness :
    isReadable cycMem 256 8 = true ∧
    (hopHeight (Dump cycMem 256 8 0) ≤ 0 ∧
      (0 = 0 →
        Dump cycMem 256 8 0 = Node.mk 256 8 .depthExceeded [] ∧
        countNodes (Dump cycMem 256 8 0) = 1)) :=
  ⟨by decide, dump_depth_invariant cycMem 256 8 0 (by decide)⟩

/-- C3: a revisited address is emitted as a CycleReference leaf with no
further recursion; dumping the cyclic heap in which 256 points to 512 and
512 points back to 256 terminates in the five-node tree whose second
encounter of 256 is exactly one CycleReference leaf, while 256 is expanded
exactly once. -/
theorem dump_cycle_law (m : Memory) (depth addr size : Nat) (visited : List Nat)
    (hr : isReadable m addr size = true) (hv : addr ∈ visited) :
    dumpGo m depth addr size visited = (Node.mk addr size .cycleReference [], visited) ∧
    Dump cycMem 256 8 10 =
      Node.mk 256 8 .aggregate [Node.mk 256 8 .pointerSlot
        [Node.mk 512 8 .aggregate [Node.mk 512 8 .pointerSlot
          [Node.mk 256 8 .cycleReference []]]]] ∧
    countNodes (Dump cycMem 256 8 10) = 5 ∧
    countP (fun n => n.address == 256 && n.kind == NodeKind.aggregate)
      (Dump cycMem 256 8 10) = 1 ∧
    countP (fun n => n.address == 256 && n.kind == NodeKind.cycleReference)
      (Dump cycMem 256 8 10) = 1 := by
  refine ⟨?_, rfl, by decide, by decide, by decide⟩
  cases depth <;> simp [dumpGo, hr, hv]

/-- Witness for C3: the second encounter of 256 inside the cyclic dump. -/
theorem dump_cycle_law_witness :
    isReadable cycMem 256 8 = true ∧ 256 ∈ [512, 256] ∧
    dumpGo cycMem 7 256 8 [512, 256] = (Node.mk 256 8 .cycleReference [], [512, 256]) :=
  ⟨by decide, by decide, (dump_cycle_law cycMem 7 256 8 [512, 256] (by decide) (by decide)).1⟩

/-- C4: the PolymorphicLayoutWalker returns one segment per direct
polymorphic base on the fixtures — two segments with strictly increasing
offsets summing to 40 bytes for MultipleInheritanceSubclass, one segment of
16 bytes for SimpleClass — and zero segments for the non-polymorphic
struct S. -/
theorem walker_fixture_segments :
    walker misMem 16384 40 = [(0, 16), (16, 24)] ∧
    (walker misMem 16384 40).length = 2 ∧
    ((walker misMem 16384 40).map Prod.fst).Pairwise (· < ·) ∧
    ((walker misMem 16384 40).map Prod.snd).sum = 40 ∧
    walker simpleClassMem 12288 16 = [(0, 16)] ∧
    ((walker simpleClassMem 12288 16).map Prod.snd).sum = 16 ∧
    walker sMem 20480 24 = [] := by
  decide

/-- C5 as stated is false on the fixture: the WithPadding layout does have a
padding byte between c (offset 2) and d (offset 4), no padding gap of the
layout measures 7 bytes (the gap before the 8-aligned h is 3 bytes, offsets
13..15), and the emitted tree contains no PaddingGap child at all — the
24-byte struct scans as three opaque pointer-sized scalar slots. -/
theorem withPadding_claim_refuted :
    (3, 1) ∈ paddingGaps 0 withPaddingFields ∧
    (∀ g ∈ paddingGaps 0 withPaddingFields, g.2 ≠ 7) ∧
    ((Dump wpMem 24576 24 10).children.filter
      (fun c => c.kind == NodeKind.paddingGap)).length = 0 := by
  decide

/-- C5 amended: the fixture layout places field offsets at
0,1,2,4,6,8,12,16, with 1-byte padding at offset 3 between c and d, 1-byte
padding at offset 7 between e (offset 6) and the 4-aligned f, and 3-byte
padding at offsets 13..15 before the 8-aligned h; the dump itself, scanning
pointer-sized slots without field metadata, emits the 24-byte struct as
three 8-byte scalar leaves and no PaddingGap nodes. -/
theorem withPadding_layout_and_dump :
    fieldOffsets 0 withPaddingFields = [0, 1, 2, 4, 6, 8, 12, 16] ∧
    paddingGaps 0 withPaddingFields = [(3, 1), (7, 1), (13, 3)] ∧
    structSize withPaddingFields = 24 ∧
    (Dump wpMem 24576 24 10).children.map Node.kind =
      [NodeKind.scalar, NodeKind.scalar, NodeKind.scalar] := by
  decide

/-- C6: dumping the fixture heap tree (node1->child and node2->child1 both
pointing at leaf1 = 4096) emits leaf1 fully expanded exactly once, under
node1 — the first parent in pre-order — and emits it as a CycleReference
shared-reference leaf under node2, the second parent. -/
theorem dump_shared_leaf :
    Dump treeMem 8192 8 10 =
      Node.mk 8192 8 .aggregate
        [Node.mk 8192 8 .pointerSlot
          [Node.mk 5120 16 .aggregate
            [Node.mk 5120 8 .pointerSlot
              [Node.mk 4608 8 .aggregate
                [Node.mk 4608 8 .pointerSlot
                  [Node.mk 4096 16 .aggregate
                    [Node.mk 4096 8 .scalar [], Node.mk 4104 8 .scalar []]]]],
             Node.mk 5128 8 .pointerSlot
              [Node.mk 4864 16 .aggregate
                [Node.mk 4864 8 .pointerSlot
                  [Node.mk 4096 16 .cycleReference []],
                 Node.mk 4872 8 .pointerSlot
                  [Node.mk 4352 16 .aggregate
                    [Node.mk 4352 8 .scalar [], Node.mk 4360 8 .scalar []]]]]]]] ∧
    countP (fun n => n.address == 4096 && n.kind == NodeKind.aggregate)
      (Dump treeMem 8192 8 10) = 1 ∧
    countP (fun n => n.address == 4096 && n.kind == NodeKind.cycleReference)
      (Dump treeMem 8192 8 10) = 1 :=
  ⟨rfl, by decide, by decide⟩

/-- C7: an interior pointer — inside a live allocation but not equal to any
allocation base — resolves to the containing allocation's remaining bytes up
to its end; an address inside no allocation but still readable resolves to
the bounded fixed-constant default window rather than NotAnAllocation. -/
theorem resolver_interior_and_default_window (m : Memory) (p b s : Nat)
    (hd : allocsDisjoint m) (hmem : (b, s) ∈ m.allocs)
    (hlo : b < p) (hhi : p < b + s)
    (hnb : ∀ r ∈ m.allocs, r.1 ≠ p) :
    resolve m p = some (p, b + s - p) ∧
    (∀ q, (∀ r ∈ m.allocs, r.1 ≠ q ∧ (q < r.1 ∨ r.1 + r.2 ≤ q)) →
      isReadable m q 1 = true → resolve m q = some (q, defaultWindowSize)) := by
  constructor
  · have h1 : m.allocs.find? (fun r => r.1 == p) = none :=
      List.find?_eq_none.mpr (fun r hr => by simp [hnb r hr])
    have h2 := find?_containing p m.allocs hd b s hmem hlo hhi
    simp [resolve, h1, h2]
  · intro q hq hread
    have h1 : m.allocs.find? (fun r => r.1 == q) = none :=
      List.find?_eq_none.mpr (fun r hr => by simp [(hq r hr).1])
    have h2 : m.allocs.find?
        (fun r => decide (r.1 < q) && decide (q < r.1 + r.2)) = none := by
      refine List.find?_eq_none.mpr (fun r hr => ?_)
      have := (hq r hr).2
      simp only [Bool.and_eq_true, decide_eq_true_eq, not_and]
      omega
    simp [resolve, h1, h2, hread]

/-- Witness for C7 on a concrete one-allocation heap: the interior pointer
108 inside the allocation (100, 16), and the readable non-heap address 200. -/
theorem resolver_interior_and_default_window_witness :
    resolve resolverMem 108 = some (108, 8) ∧
    resolve resolverMem 200 = some (200, defaultWindowSize) := by
  have h := resolver_interior_and_default_window resolverMem 108 100 16
    (by simp [allocsDisjoint, resolverMem])
    (by simp [resolverMem]) (by omega) (by omega)
    (by simp [resolverMem])
  exact ⟨h.1, h.2 200 (by simp [resolverMem]) (by decide)⟩

/-- C8: Dump never propagates an error — every invocation builds a node
spanning exactly the requested region, and each error condition (invalid
address, revisited address, exhausted depth budget) is resolved locally into
a leaf-node annotation of the emitted tree. -/
theorem dump_error_containment (m : Memory) (depth addr size : Nat) (visited : List Nat) :
    (∃ k cs, (dumpGo m depth addr size visited).1 = Node.mk addr size k cs) ∧
    (isReadable m addr size = false →
      (dumpGo m depth addr size visited).1 = Node.mk addr size .unreadable []) ∧
    (isReadable m addr size = true → addr ∈ visited →
      (dumpGo m depth addr size visited).1 = Node.mk addr size .cycleReference []) ∧
    (isReadable m addr size = true → addr ∉ visited → depth = 0 →
      (dumpGo m depth addr size visited).1 = Node.mk addr size .depthExceeded []) := by
  refine ⟨?_, ?_, ?_, ?_⟩
  · cases depth with
    | zero =>
      simp only [dumpGo]
      split
      · split
        · exact ⟨_, _, rfl⟩
        · exact ⟨_, _, rfl⟩
      · exact ⟨_, _, rfl⟩
    | succ d =>
      simp only [dumpGo]
      split
      · split
        · exact ⟨_, _, rfl⟩
        · cases hw : walker m addr size with
          | nil => simp only [hw]; exact ⟨_, _, rfl⟩
          | cons seg rest => simp only [hw]; exact ⟨_, _, rfl⟩
      · exact ⟨_, _, rfl⟩
  · intro h
    cases depth <;> simp [dumpGo, h]
  · intro h hv
    cases depth <;> simp [dumpGo, h, hv]
  · intro h hv h0
    subst h0
    simp [dumpGo, h, hv]

/-- Witness for C8: a null address degrades to an Unreadable leaf, and the
boundary and cycle conditions degrade to their marker leaves. -/
theorem dump_error_containment_witness :
    (isReadable cycMem 0 8 = false ∧
      (dumpGo cycMem 3 0 8 []).1 = Node.mk 0 8 .unreadable []) ∧
    (isReadable cycMem 256 8 = true ∧ 256 ∈ [256] ∧
      (dumpGo cycMem 3 256 8 [256]).1 = Node.mk 256 8 .cycleReference []) :=
  ⟨⟨by decide, (dump_error_containment cycMem 3 0 8 []).2.1 (by decide)⟩,
   ⟨by decide, by decide,
     (dump_error_containment cycMem 3 256 8 [256]).2.2.1 (by decide) (by decide)⟩⟩

/-- C9: two Dump invocations of the same unchanged memory region with the
same knownSize and maxDepth emit the identical tree — same kinds, offsets
and sizes in the same pre-order — no matter what other dump invocations run
in between, because the visited set is per-invocation and discarded. -/
theorem dump_idempotent (m : Memory) (mid : List (Nat × Nat × Nat)) (addr size maxDepth : Nat) :
    ∃ t : Node, runDumps m ((addr, size, maxDepth) :: (mid ++ [(addr, size, maxDepth)])) =
      t :: (runDumps m mid ++ [t]) := by
  refine ⟨Dump m addr size maxDepth, ?_⟩
  have happ : ∀ l1 l2 : List (Nat × Nat × Nat),
      runDumps m (l1 ++ l2) = runDumps m l1 ++ runDumps m l2 := by
    intro l1 l2
    induction l1 with
    | nil => simp [runDumps]
    | cons c cs ih => simp [runDumps, ih]
  simp [runDumps, happ]

/-- C10: DumpCMemory invokes the sink exactly six times, always with
maxDepth 10; the "C tree" call passes the local pointer variable's own size
(one pointer, 8 bytes) rather than the 16-byte MallocTreeRoot it points to,
so that dump's declared root region holds exactly one pointer-sized slot;
every other call passes the full sizeof of the object itself. -/
theorem dumpCMemory_invocations :
    dumpCMemoryCalls.length = 6 ∧
    (∀ c ∈ dumpCMemoryCalls, c.maxDepth = 10) ∧
    dumpCMemoryCalls.map DumpCall.knownSize = [24, 24, 8, 16, 24, 40] ∧
    (dumpCMemoryCalls.map DumpCall.knownSize)[2]? = some pointerSize ∧
    pointerSize ≠ structSize mallocTreeRootFields ∧
    (Dump treeMem 8192 pointerSize 10).children.length = 1 := by
  decide

end MemoryDumper
